import Mathlib

/-!
Verification of the task-scheduler core (src/index.ts, class TaskScheduler).

Shallow embedding notes:
* JS strings are embedded as `List Char`; JS numbers occurring here are
  integers in every reachable configuration, so they are embedded as `Int`
  (timestamps, millisecond durations) or `Nat` (indices, counts).
* The logger is modelled by returning the list of emitted messages
  (`LogMsg`); message formatting (template text, `toFixed`, locale dates)
  is out of scope, so each message constructor stores the raw data that
  the source interpolates into the template.
* Work units are modelled by `TaskSpec`: a unit either pushes a value to
  an observable sequence or throws.  The executor returns the observable
  trace of pushed values.
* The source's task loop re-reads `this.tasks` on every iteration
  (`for (let i = 0; i < this.tasks.length; i++)`), so registrations that
  the event loop interleaves with a pass are visible to that pass.  The
  loop therefore takes a stream `regs` of task lists: the head of the
  stream is appended to the live task array while iteration step `i`
  runs, mirroring registrations performed during the awaited unit.
* The external cron engine is modelled by `CronWorld`: `new CronJob` +
  `start()` allocate a fresh id and add it to the ticking set; `stop()`
  on a job removes its id.
-/

namespace TaskScheduler

/-- JS `\s` (also the set removed by `String.prototype.trim`): tab, line
feed, vertical tab, form feed, carriage return, space, no-break space,
Ogham space mark, the en-quad..hair-space range, line separator, paragraph
separator, narrow no-break space, medium mathematical space, ideographic
space, and the byte-order mark. -/
def jsWs (c : Char) : Bool :=
  c.toNat == 9 || c.toNat == 10 || c.toNat == 11 || c.toNat == 12 ||
  c.toNat == 13 || c.toNat == 32 || c.toNat == 0xa0 || c.toNat == 0x1680 ||
  (decide (0x2000 ≤ c.toNat) && decide (c.toNat ≤ 0x200a)) ||
  c.toNat == 0x2028 || c.toNat == 0x2029 || c.toNat == 0x202f ||
  c.toNat == 0x205f || c.toNat == 0x3000 || c.toNat == 0xfeff

/-- JS `\d`, exactly the ASCII digits 0-9. -/
def isDigitCh (c : Char) : Bool :=
  decide (48 ≤ c.toNat) && decide (c.toNat ≤ 57)

/-- The ECMAScript line terminators, which `.` (without the `s` flag, as
in the source's regex) does not match: line feed, carriage return, line
separator, paragraph separator. -/
def isLineTerm (c : Char) : Bool :=
  c.toNat == 10 || c.toNat == 13 || c.toNat == 0x2028 || c.toNat == 0x2029

/-- After the literal `@` the regex requires `\s*(\d+)` up to the end of the
string: drop the whitespace run, then the remainder must be a nonempty
digit string, which is the captured cooldown text. -/
def afterAt (l : List Char) : Option (List Char) :=
  let d := l.dropWhile jsWs
  if d ≠ [] ∧ d.all isDigitCh = true then some d else none

/-- Whether a suffix of the input matches `\s*@\s*(\d+)$` in its entirety,
returning the captured digits. -/
def atSuffix (l : List Char) : Option (List Char) :=
  match l.dropWhile jsWs with
  | '@' :: rest => afterAt rest
  | _ => none

/-- The match of `/^(.*?)(?:\s*@\s*(\d+))?$/` (no `s` or `m` flags): the
lazy prefix grows one character at a time; at each position the optional
suffix group is tried first (it must reach the end of the string), then,
only at the end of the input, the group is skipped.  `.` does not match a
line terminator, so the prefix cannot grow past one: if no position up to
and including the first line terminator admits the group, the match is
null (`none`) and the source takes its `if (!match)` branch. -/
def findSplit : List Char → Option (List Char × Option (List Char))
  | [] => some ([], none)
  | c :: r =>
    match atSuffix (c :: r) with
    | some d => some ([], some d)
    | none =>
      if isLineTerm c then none
      else
        match findSplit r with
        | some p => some (c :: p.1, p.2)
        | none => none

/-- JS `String.prototype.trim`: strip whitespace from both ends. -/
def trimChars (l : List Char) : List Char :=
  ((l.dropWhile jsWs).reverse.dropWhile jsWs).reverse

/-- `parseInt(d, 10)` on a nonempty ASCII digit string. -/
def digitsVal (l : List Char) : Nat :=
  l.foldl (fun a c => a * 10 + (c.toNat - '0'.toNat)) 0

/-- `ScheduleConfig` of the source: the cron pattern passed through to the
trigger, and the cooldown in milliseconds. -/
structure ScheduleConfig where
  schedule : List Char
  cooldown : Int
  deriving DecidableEq

/-- `parseSchedule(scheduleString, backupCooldownSeconds = 0)`: if the
regex match is null (line terminator in the lazy prefix), return the raw
untrimmed string with the fallback cooldown; otherwise the captured
digits (a nonempty, hence truthy, string) win over the fallback, the
pattern portion is trimmed, and seconds are converted to milliseconds. -/
def parseSchedule (scheduleString : List Char) (backupCooldownSeconds : Int) :
    ScheduleConfig :=
  match findSplit scheduleString with
  | none =>
    { schedule := scheduleString, cooldown := backupCooldownSeconds * 1000 }
  | some p =>
    let cooldownSeconds : Int :=
      match p.2 with
      | some d => (digitsVal d : Int)
      | none => backupCooldownSeconds
    { schedule := trimChars p.1, cooldown := cooldownSeconds * 1000 }

/-- A registered work unit, abstracted to its observable behaviour: push a
value to an observable sequence, or throw. -/
inductive TaskSpec where
  | push (v : Nat)
  | fail
  deriving DecidableEq

/-- The messages the scheduler emits, each carrying the data interpolated
into the corresponding template of the source.  `taskFailed` is the only
message sent to `logger.error`. -/
inductive LogMsg where
  | skipRunning
  | skipCooldown (secondsRemaining : Int)
  | banner
  | startingExec
  | executingTask (pos total : Nat)
  | taskCompleted (pos : Nat)
  | taskFailed (pos : Nat)
  | execCompleted (elapsedMs : Int)
  | nextRun (timeMs : Int)
  | scheduling (pattern : List Char) (cooldownMs : Int)
  | runningImmediately (name : List Char) (value : Option (List Char))
  | stopped
  deriving DecidableEq

/-- The mutable fields of a `TaskScheduler` instance (the logger is
modelled by the returned message lists). -/
structure SchedulerState where
  tasks : List TaskSpec
  isRunning : Bool
  lastFinishTime : Int
  cronJob : Option Nat
  scheduleConfig : ScheduleConfig
  immediateEnvName : Option (List Char)
  deriving DecidableEq

/-- The options bundle of the constructor (logger omitted, see above). -/
structure TaskSchedulerOptions where
  immediateEnvName : Option (List Char) := none
  backupCooldownSeconds : Option Int := none
  deriving DecidableEq

/-- The constructor: `scheduleString` defaults to `"0 5 * * * *"`, the
fallback cooldown to `0` (via the default parameter of `parseSchedule`). -/
def mk (scheduleString : Option (List Char)) (options : TaskSchedulerOptions) :
    SchedulerState :=
  { tasks := []
    isRunning := false
    lastFinishTime := 0
    cronJob := none
    scheduleConfig :=
      parseSchedule (scheduleString.getD ("0 5 * * * *".toList))
        (options.backupCooldownSeconds.getD 0)
    immediateEnvName := options.immediateEnvName }

/-- `register(task)`: append-only registration. -/
def register (st : SchedulerState) (t : TaskSpec) : SchedulerState :=
  { st with tasks := st.tasks ++ [t] }

/-- `Math.ceil(a / b)` for integer `a` and positive integer `b`. -/
def jsCeilDiv (a b : Int) : Int :=
  -(Int.ediv (-a) b)

/-- Total length of a stream of registration batches. -/
def sumLens (regs : List (List TaskSpec)) : Nat :=
  (regs.map List.length).sum

/-- Fuel-indexed form of the task loop: one unit of fuel per loop
iteration.  The fuel only serves to make the recursion structural; the
loop itself always stops because `tasks.drop i` runs out, never because
the fuel does (with the exact measure passed by `runLoop`, fuel `0`
implies `i ≥ tasks.length`, so both exits agree). -/
def runLoopF : Nat → Nat → List TaskSpec → List (List TaskSpec) →
    List LogMsg × List Nat × List TaskSpec
  | 0, _, tasks, _ => ([], [], tasks)
  | fuel + 1, i, tasks, regs =>
    match tasks.drop i with
    | [] => ([], [], tasks)
    | t :: _ =>
      let r := runLoopF fuel (i + 1) (tasks ++ regs.headD []) regs.tail
      match t with
      | TaskSpec.push v =>
          (LogMsg.executingTask (i + 1) tasks.length ::
             LogMsg.taskCompleted (i + 1) :: r.1,
           v :: r.2.1, r.2.2)
      | TaskSpec.fail =>
          (LogMsg.executingTask (i + 1) tasks.length ::
             LogMsg.taskFailed (i + 1) :: r.1,
           r.2.1, r.2.2)

/-- The task loop `for (let i = 0; i < this.tasks.length; i++)` together
with `executeTask`: the length test re-reads the live array, so the batch
registered while step `i` runs (head of `regs`) is visible to the next
length test.  Returns the emitted log, the observable trace of pushed
values, and the final live task array. -/
def runLoop (i : Nat) (tasks : List TaskSpec) (regs : List (List TaskSpec)) :
    List LogMsg × List Nat × List TaskSpec :=
  runLoopF (sumLens regs + tasks.length - i) i tasks regs

/-- `executor()`: the execution-gating state machine.  `now` is the clock
read at entry, `startTime` the read after the guards, `tFin` the read at
loop completion (three separate `Date.now()` calls in the source). -/
def executor (now startTime tFin : Int) (regs : List (List TaskSpec))
    (st : SchedulerState) : SchedulerState × List LogMsg × List Nat :=
  if st.isRunning then
    (st, [LogMsg.skipRunning], [])
  else if now - st.lastFinishTime < st.scheduleConfig.cooldown then
    (st,
     [LogMsg.skipCooldown
        (jsCeilDiv (st.scheduleConfig.cooldown - (now - st.lastFinishTime)) 1000)],
     [])
  else
    let r := runLoop 0 st.tasks regs
    ({ st with tasks := r.2.2, isRunning := false, lastFinishTime := tFin },
     LogMsg.banner :: LogMsg.startingExec :: r.1 ++
       (LogMsg.execCompleted (tFin - startTime) ::
         (if 0 < st.scheduleConfig.cooldown then
            [LogMsg.nextRun (tFin + st.scheduleConfig.cooldown)]
          else []) ++ [LogMsg.banner]),
     r.2.1)

/-- The external cron engine: ids handed out by `new CronJob`, and the set
of jobs that have been started and not stopped. -/
structure CronWorld where
  nextId : Nat
  ticking : List Nat
  deriving DecidableEq

/-- `shouldRunImmediately()`: false when no env name is configured (JS
treats the empty string as falsy too); otherwise tests presence of the
variable in the environment. -/
def shouldRunImmediately (env : List Char → Option (List Char))
    (st : SchedulerState) : Bool :=
  match st.immediateEnvName with
  | none => false
  | some n => if n = [] then false else (env n).isSome

/-- `run()`: scheduled branch logs the pattern and cooldown, then assigns
`this.cronJob = new CronJob(...)` and starts it — without stopping any
previously held job.  Immediate branch logs and awaits one executor pass. -/
def run (env : List Char → Option (List Char)) (now startTime tFin : Int)
    (regs : List (List TaskSpec)) (st : SchedulerState) (w : CronWorld) :
    SchedulerState × CronWorld × List LogMsg × List Nat :=
  if !(shouldRunImmediately env st) then
    ({ st with cronJob := some w.nextId },
     { nextId := w.nextId + 1, ticking := w.ticking ++ [w.nextId] },
     [LogMsg.scheduling st.scheduleConfig.schedule st.scheduleConfig.cooldown],
     [])
  else
    let name := st.immediateEnvName.getD []
    let r := executor now startTime tFin regs st
    (r.1, w, LogMsg.runningImmediately name (env name) :: r.2.1, r.2.2)

/-- `stop()`: if a handle is held, stop that job and log; the handle field
itself is not cleared by the source. -/
def stop (st : SchedulerState) (w : CronWorld) :
    SchedulerState × CronWorld × List LogMsg :=
  match st.cronJob with
  | some id => (st, { w with ticking := w.ticking.erase id }, [LogMsg.stopped])
  | none => (st, w, [])

end TaskScheduler

/-- The values pushed by a list of work units, in order. -/
def pushesOf (ts : List TaskScheduler.TaskSpec) : List Nat :=
  ts.filterMap fun t =>
    match t with
    | TaskScheduler.TaskSpec.push v => some v
    | TaskScheduler.TaskSpec.fail => none

/-- Whether a message goes to the error channel (`logger.error`). -/
def isErrorMsg (m : TaskScheduler.LogMsg) : Bool :=
  match m with
  | TaskScheduler.LogMsg.taskFailed _ => true
  | _ => false

/-- Whether a message is an `Executing task` notice. -/
def isExecMsg (m : TaskScheduler.LogMsg) : Bool :=
  match m with
  | TaskScheduler.LogMsg.executingTask _ _ => true
  | _ => false

/-- The error notices a pass over `ts` must produce: one per failing unit,
naming its 1-based position (`i` is the 0-based position of the list head). -/
def failNotices : Nat → List TaskScheduler.TaskSpec → List TaskScheduler.LogMsg
  | _, [] => []
  | i, TaskScheduler.TaskSpec.push _ :: r => failNotices (i + 1) r
  | i, TaskScheduler.TaskSpec.fail :: r =>
      TaskScheduler.LogMsg.taskFailed (i + 1) :: failNotices (i + 1) r

/-- Reference trace of the loop over a fixed task list (no interleaved
registrations): log and pushed values for the remaining units, where `i`
is the 0-based position of the list head and `total` the array length. -/
def passFrom (total : Nat) : Nat → List TaskScheduler.TaskSpec →
    List TaskScheduler.LogMsg × List Nat
  | _, [] => ([], [])
  | i, TaskScheduler.TaskSpec.push v :: r =>
      let rest := passFrom total (i + 1) r
      (TaskScheduler.LogMsg.executingTask (i + 1) total ::
         TaskScheduler.LogMsg.taskCompleted (i + 1) :: rest.1,
       v :: rest.2)
  | i, TaskScheduler.TaskSpec.fail :: r =>
      let rest := passFrom total (i + 1) r
      (TaskScheduler.LogMsg.executingTask (i + 1) total ::
         TaskScheduler.LogMsg.taskFailed (i + 1) :: rest.1,
       rest.2)

section ParserLemmas

open TaskScheduler

lemma ws_not_digit (c : Char) (h : jsWs c = true) : isDigitCh c = false := by
  rw [Bool.eq_false_iff]
  intro hd
  simp only [jsWs, Bool.or_eq_true, Bool.and_eq_true, beq_iff_eq,
    decide_eq_true_eq] at h
  simp only [isDigitCh, Bool.and_eq_true, decide_eq_true_eq] at hd
  omega

lemma digit_not_ws (c : Char) (h : isDigitCh c = true) : jsWs c = false := by
  rw [Bool.eq_false_iff]
  intro hw
  simp only [isDigitCh, Bool.and_eq_true, decide_eq_true_eq] at h
  simp only [jsWs, Bool.or_eq_true, Bool.and_eq_true, beq_iff_eq,
    decide_eq_true_eq] at hw
  omega

lemma dropWhile_digits (k : List Char) (hd : k.all isDigitCh = true) :
    k.dropWhile jsWs = k := by
  cases k with
  | nil => rfl
  | cons c r =>
    have hc : isDigitCh c = true := by
      rw [List.all_eq_true] at hd
      exact hd c (List.mem_cons_self c r)
    simp [List.dropWhile, digit_not_ws c hc]

lemma atSuffix_base (k : List Char) (hne : k ≠ []) (hd : k.all isDigitCh = true) :
    atSuffix (' ' :: '@' :: ' ' :: k) = some k := by
  have hsp : jsWs ' ' = true := by decide
  have hat : jsWs '@' = false := by decide
  have h1 : (' ' :: '@' :: ' ' :: k).dropWhile jsWs = '@' :: ' ' :: k := by
    rw [List.dropWhile_cons, if_pos hsp, List.dropWhile_cons,
      if_neg (by simp [hat])]
  rw [atSuffix, h1]
  have h2 : (' ' :: k).dropWhile jsWs = k := by
    rw [List.dropWhile_cons, if_pos hsp, dropWhile_digits k hd]
  simp [afterAt, h2, hne, hd]

lemma afterAt_decomp (l d : List Char) (h : afterAt l = some d) :
    ∃ w, w.all jsWs = true ∧ l = w ++ d ∧ d ≠ [] ∧ d.all isDigitCh = true := by
  rw [afterAt] at h
  by_cases hc : l.dropWhile jsWs ≠ [] ∧ (l.dropWhile jsWs).all isDigitCh = true
  · rw [if_pos hc] at h
    refine ⟨l.takeWhile jsWs, ?_, ?_, ?_, ?_⟩
    · rw [List.all_eq_true]
      intro c hm
      exact List.mem_takeWhile_imp hm
    · rw [← Option.some_inj.mp h]
      exact (List.takeWhile_append_dropWhile jsWs l).symm
    · rw [← Option.some_inj.mp h]; exact hc.1
    · rw [← Option.some_inj.mp h]; exact hc.2
  · rw [if_neg hc] at h
    exact absurd h (by simp)

lemma atSuffix_decomp (l d : List Char) (h : atSuffix l = some d) :
    ∃ w1 w2, w1.all jsWs = true ∧ w2.all jsWs = true ∧
      l = w1 ++ '@' :: (w2 ++ d) ∧ d ≠ [] ∧ d.all isDigitCh = true := by
  unfold atSuffix at h
  split at h
  · next rest hdw =>
    obtain ⟨w2, hw2, hrest, hne, hdig⟩ := afterAt_decomp rest d h
    refine ⟨l.takeWhile jsWs, w2, ?_, hw2, ?_, hne, hdig⟩
    · rw [List.all_eq_true]
      intro x hm
      exact List.mem_takeWhile_imp hm
    · have h3 := List.takeWhile_append_dropWhile jsWs l
      rw [hdw, hrest] at h3
      exact h3.symm
  · exact absurd h (by simp)

lemma digit_prefix_unique : ∀ (a b r s : List Char), a ++ r = b ++ s →
    a.all isDigitCh = true → b.all isDigitCh = true →
    (∀ c t, r = c :: t → isDigitCh c = false) →
    (∀ c t, s = c :: t → isDigitCh c = false) → a = b := by
  intro a
  induction a with
  | nil =>
    intro b r s heq _ hb hr _
    cases b with
    | nil => rfl
    | cons c b2 =>
      simp only [List.nil_append] at heq
      have hc : isDigitCh c = true := by
        rw [List.all_eq_true] at hb
        exact hb c (List.mem_cons_self c b2)
      have := hr c (b2 ++ s) heq
      rw [hc] at this
      exact absurd this (by simp)
  | cons c a2 ih =>
    intro b r s heq ha hb hr hs
    cases b with
    | nil =>
      simp only [List.nil_append] at heq
      have hc : isDigitCh c = true := by
        rw [List.all_eq_true] at ha
        exact ha c (List.mem_cons_self c a2)
      have := hs c (a2 ++ r) heq.symm
      rw [hc] at this
      exact absurd this (by simp)
    | cons c2 b2 =>
      simp only [List.cons_append, List.cons.injEq] at heq
      obtain ⟨rfl, heq2⟩ := heq
      rw [List.all_cons, Bool.and_eq_true] at ha hb
      have := ih b2 r s heq2 ha.2 hb.2 hr hs
      rw [this]

lemma atSuffix_capture (l q k d : List Char) (hl : l = q ++ ' ' :: k)
    (hdig : k.all isDigitCh = true) (h : atSuffix l = some d) : d = k := by
  obtain ⟨w1, w2, hw1, hw2, hdecomp, hdne, hddig⟩ := atSuffix_decomp l d h
  have hrev : d.reverse ++ (w2.reverse ++ '@' :: w1.reverse) =
      k.reverse ++ (' ' :: q.reverse) := by
    have h2 : (w1 ++ '@' :: (w2 ++ d)).reverse = (q ++ ' ' :: k).reverse := by
      rw [← hdecomp, hl]
    simp only [List.reverse_append, List.reverse_cons, List.append_assoc,
      List.nil_append, List.cons_append] at h2
    simpa [List.append_assoc] using h2
  have hdk : d.reverse = k.reverse := by
    refine digit_prefix_unique d.reverse k.reverse
      (w2.reverse ++ '@' :: w1.reverse) (' ' :: q.reverse) hrev ?_ ?_ ?_ ?_
    · rw [List.all_reverse]; exact hddig
    · rw [List.all_reverse]; exact hdig
    · intro c t hct
      cases hw : w2.reverse with
      | nil =>
        rw [hw, List.nil_append] at hct
        have : c = '@' := (List.cons.injEq _ _ _ _ ▸ hct).1.symm
        rw [this]; decide
      | cons x xs =>
        rw [hw, List.cons_append] at hct
        have hcx : c = x := ((List.cons.injEq _ _ _ _).mp hct).1.symm
        have hxw : jsWs x = true := by
          rw [List.all_eq_true] at hw2
          exact hw2 x (by rw [← List.mem_reverse, hw]; exact List.mem_cons_self x xs)
        rw [hcx]
        exact ws_not_digit x hxw
    · intro c t hct
      have : c = ' ' := ((List.cons.injEq _ _ _ _).mp hct).1.symm
      rw [this]; decide
  exact List.reverse_injective hdk

lemma findSplit_cons (c : Char) (r : List Char) :
    findSplit (c :: r) =
      match atSuffix (c :: r) with
      | some d => some ([], some d)
      | none =>
        if isLineTerm c then none
        else
          match findSplit r with
          | some p => some (c :: p.1, p.2)
          | none => none := rfl

lemma findSplit_cons_some (c : Char) (r d : List Char)
    (h : atSuffix (c :: r) = some d) : findSplit (c :: r) = some ([], some d) := by
  rw [findSplit_cons, h]

lemma findSplit_cons_lt (c : Char) (r : List Char)
    (h1 : atSuffix (c :: r) = none) (h2 : isLineTerm c = true) :
    findSplit (c :: r) = none := by
  rw [findSplit_cons, h1]
  rw [if_pos h2]

lemma findSplit_cons_step (c : Char) (r : List Char)
    (h1 : atSuffix (c :: r) = none) (h2 : isLineTerm c = false) :
    findSplit (c :: r) =
      match findSplit r with
      | some p => some (c :: p.1, p.2)
      | none => none := by
  rw [findSplit_cons, h1]
  rw [if_neg (by simp [h2])]

lemma findSplit_capture : ∀ (q k : List Char),
    q.all (fun c => !isLineTerm c) = true → k ≠ [] → k.all isDigitCh = true →
    ∃ sched, findSplit (q ++ ' ' :: '@' :: ' ' :: k) = some (sched, some k) := by
  intro q
  induction q with
  | nil =>
    intro k _ hne hdig
    refine ⟨[], ?_⟩
    rw [List.nil_append]
    exact findSplit_cons_some ' ' ('@' :: ' ' :: k) k (atSuffix_base k hne hdig)
  | cons c q2 ih =>
    intro k hlt hne hdig
    rw [List.all_cons, Bool.and_eq_true] at hlt
    have hc : isLineTerm c = false := by simpa using hlt.1
    rw [List.cons_append]
    cases hat : atSuffix (c :: (q2 ++ ' ' :: '@' :: ' ' :: k)) with
    | some d =>
      have hshape : c :: (q2 ++ ' ' :: '@' :: ' ' :: k) =
          (c :: (q2 ++ [' ', '@'])) ++ ' ' :: k := by
        simp [List.append_assoc]
      have hd : d = k := atSuffix_capture _ (c :: (q2 ++ [' ', '@'])) k d hshape hdig hat
      rw [findSplit_cons_some _ _ _ hat, hd]
      exact ⟨[], rfl⟩
    | none =>
      rw [findSplit_cons_step _ _ hat hc]
      obtain ⟨sched, hs⟩ := ih k hlt.2 hne hdig
      rw [hs]
      exact ⟨c :: sched, rfl⟩

lemma findSplit_no_at : ∀ (l : List Char),
    (∀ n, n < l.length → atSuffix (l.drop n) = none) →
    l.all (fun c => !isLineTerm c) = true →
    findSplit l = some (l, none) := by
  intro l
  induction l with
  | nil => intro _ _; rfl
  | cons c r ih =>
    intro h hlt
    rw [List.all_cons, Bool.and_eq_true] at hlt
    have h0 := h 0 (by simp)
    rw [List.drop_zero] at h0
    have hc : isLineTerm c = false := by simpa using hlt.1
    rw [findSplit_cons_step c r h0 hc]
    have hr := ih (fun n hn => by
      have h2 := h (n + 1) (by simpa using Nat.succ_lt_succ hn)
      rwa [List.drop_succ_cons] at h2) hlt.2
    rw [hr]

lemma findSplit_null : ∀ (l : List Char),
    (∀ n, n < l.length → atSuffix (l.drop n) = none) →
    l.all (fun c => !isLineTerm c) = false →
    findSplit l = none := by
  intro l
  induction l with
  | nil =>
    intro _ hlt
    exact absurd hlt (by simp)
  | cons c r ih =>
    intro h hlt
    have h0 := h 0 (by simp)
    rw [List.drop_zero] at h0
    cases hc : isLineTerm c with
    | true => exact findSplit_cons_lt c r h0 hc
    | false =>
      rw [findSplit_cons_step c r h0 hc]
      have hrall : r.all (fun x => !isLineTerm x) = false := by
        rw [List.all_cons, hc] at hlt
        simpa using hlt
      have hr := ih (fun n hn => by
        have h2 := h (n + 1) (by simpa using Nat.succ_lt_succ hn)
        rwa [List.drop_succ_cons] at h2) hrall
      rw [hr]

/-- C5 counterexample: `"a\nb @ 5"` has the form `<p> @ <k>` with
`p = "a\nb"` and `k = "5"`, yet its cooldown is the fallback (7000 ms
here), not 5 seconds, because `.` does not match the line feed and the
regex match is null; and `" x \n"` is a non-empty string with no
`@ <digits>` suffix whose parsed pattern is the raw untrimmed input, not
the trimmed one.  Both universally quantified parts of the claim are
therefore false of the program. -/
theorem C5_counterexample :
    (parseSchedule ['a', '\n', 'b', ' ', '@', ' ', '5'] 7).cooldown ≠
      (digitsVal ['5'] : Int) * 1000 ∧
    (parseSchedule ['a', '\n', 'b', ' ', '@', ' ', '5'] 7).cooldown = 7000 ∧
    (parseSchedule [' ', 'x', ' ', '\n'] 7).schedule ≠
      trimChars [' ', 'x', ' ', '\n'] ∧
    (parseSchedule [' ', 'x', ' ', '\n'] 7).schedule = [' ', 'x', ' ', '\n'] := by
  refine ⟨?_, ?_, ?_, ?_⟩ <;> decide

/-- C5 amended: a schedule string of the form `<p> @ <k>` (`k` a digit
sequence) whose prefix `p` contains no line terminator parses to a
cooldown of `k` seconds converted to milliseconds, for every fallback
value; a non-empty schedule string with no position matching the
`@ <digits>` suffix group parses to the fallback cooldown, and its
pattern equals the trimmed input when the string contains no line
terminator, but equals the raw untrimmed input when it contains one (the
regex match is null then, and the source takes its `!match` branch). -/
theorem C5_parse_cooldown_laws :
    (∀ (p k : List Char) (b : Int), k ≠ [] → k.all isDigitCh = true →
      p.all (fun c => !isLineTerm c) = true →
      (parseSchedule (p ++ ' ' :: '@' :: ' ' :: k) b).cooldown =
        (digitsVal k : Int) * 1000)
  ∧ (∀ (s : List Char) (b : Int), s ≠ [] →
      (∀ n, n < s.length → atSuffix (s.drop n) = none) →
      (parseSchedule s b).cooldown = b * 1000 ∧
      (s.all (fun c => !isLineTerm c) = true →
        (parseSchedule s b).schedule = trimChars s) ∧
      (s.all (fun c => !isLineTerm c) = false →
        (parseSchedule s b).schedule = s)) := by
  constructor
  · intro p k b hne hdig hlt
    obtain ⟨sched, hs⟩ := findSplit_capture p k hlt hne hdig
    simp only [parseSchedule]
    rw [hs]
  · intro s b _ hno
    cases hlt : s.all (fun c => !isLineTerm c) with
    | true =>
      have hs := findSplit_no_at s hno hlt
      simp only [parseSchedule]
      rw [hs]
      exact ⟨rfl, fun _ => rfl, fun hf => Bool.noConfusion hf⟩
    | false =>
      have hs := findSplit_null s hno hlt
      simp only [parseSchedule]
      rw [hs]
      exact ⟨rfl, fun ht => Bool.noConfusion ht, fun _ => rfl⟩

theorem C5_laws_witness :
    (parseSchedule ['a', ' ', '@', ' ', '3', '0'] 7).cooldown = 30000 ∧
    (parseSchedule ['a', 'b', 'c'] 5).cooldown = 5000 ∧
    (parseSchedule ['a', 'b', 'c'] 5).schedule = ['a', 'b', 'c'] ∧
    (parseSchedule ['x', '\n'] 5).schedule = ['x', '\n'] := by
  have h1 := C5_parse_cooldown_laws.1 ['a'] ['3', '0'] 7
    (by decide) (by decide) (by decide)
  have h2 := C5_parse_cooldown_laws.2 ['a', 'b', 'c'] 5 (by decide) (by decide)
  have h3 := C5_parse_cooldown_laws.2 ['x', '\n'] 5 (by decide) (by decide)
  exact ⟨h1.trans (by decide), h2.1.trans (by decide),
    (h2.2.1 (by decide)).trans (by decide), h3.2.2 (by decide)⟩

/-- C4: contrary to the claim, the source's `parseSchedule` (the regex
always matches) raises nothing on empty or whitespace-only input: it
yields a `ScheduleConfig` with an empty pattern and the fallback
cooldown.  The claimed `InvalidSpecification` failure does not exist in
`src/index.ts`. -/
theorem C4_empty_spec_not_rejected :
    parseSchedule [] 0 = { schedule := [], cooldown := 0 } ∧
    parseSchedule [' ', '\t', ' '] 5 = { schedule := [], cooldown := 5000 } := by
  constructor <;> decide

/-- C10: constructing without a schedule string argument is definitionally
the same as constructing with the pattern `"0 5 * * * *"`; that default
pattern survives parsing unchanged and the cooldown is the fallback from
the options (in milliseconds). -/
theorem C10_default_schedule_string :
    ∀ options : TaskSchedulerOptions,
      TaskScheduler.mk none options =
        TaskScheduler.mk (some ("0 5 * * * *".toList)) options ∧
      (TaskScheduler.mk none options).scheduleConfig.schedule =
        "0 5 * * * *".toList ∧
      (TaskScheduler.mk none options).scheduleConfig.cooldown =
        (options.backupCooldownSeconds.getD 0) * 1000 := by
  intro options
  exact ⟨rfl, rfl, rfl⟩

theorem C10_witness :
    TaskScheduler.mk none {} =
      TaskScheduler.mk (some ("0 5 * * * *".toList)) {} ∧
    (TaskScheduler.mk none {}).scheduleConfig.schedule = "0 5 * * * *".toList ∧
    (TaskScheduler.mk none {}).scheduleConfig.cooldown = 0 :=
  C10_default_schedule_string {}

lemma runLoop_drop_nil (i : Nat) (ts : List TaskSpec) (regs : List (List TaskSpec))
    (h : ts.drop i = []) : runLoop i ts regs = ([], [], ts) := by
  unfold runLoop
  cases hn : sumLens regs + ts.length - i with
  | zero => rfl
  | succ m => simp [runLoopF, h]

lemma runLoop_push (i : Nat) (ts : List TaskSpec) (regs : List (List TaskSpec))
    (v : Nat) (tail : List TaskSpec) (h : ts.drop i = TaskSpec.push v :: tail) :
    runLoop i ts regs =
      (LogMsg.executingTask (i + 1) ts.length :: LogMsg.taskCompleted (i + 1) ::
         (runLoop (i + 1) (ts ++ regs.headD []) regs.tail).1,
       v :: (runLoop (i + 1) (ts ++ regs.headD []) regs.tail).2.1,
       (runLoop (i + 1) (ts ++ regs.headD []) regs.tail).2.2) := by
  have hlen : i < ts.length := by
    have h2 := congrArg List.length h
    simp [List.length_drop] at h2
    omega
  have hfuel : sumLens regs + ts.length - i =
      (sumLens regs.tail + (ts ++ regs.headD []).length - (i + 1)) + 1 := by
    cases regs <;> simp [sumLens, List.length_append] <;> omega
  unfold runLoop
  rw [hfuel]
  simp [runLoopF, h]

lemma runLoop_fail (i : Nat) (ts : List TaskSpec) (regs : List (List TaskSpec))
    (tail : List TaskSpec) (h : ts.drop i = TaskSpec.fail :: tail) :
    runLoop i ts regs =
      (LogMsg.executingTask (i + 1) ts.length :: LogMsg.taskFailed (i + 1) ::
         (runLoop (i + 1) (ts ++ regs.headD []) regs.tail).1,
       (runLoop (i + 1) (ts ++ regs.headD []) regs.tail).2.1,
       (runLoop (i + 1) (ts ++ regs.headD []) regs.tail).2.2) := by
  have hlen : i < ts.length := by
    have h2 := congrArg List.length h
    simp [List.length_drop] at h2
    omega
  have hfuel : sumLens regs + ts.length - i =
      (sumLens regs.tail + (ts ++ regs.headD []).length - (i + 1)) + 1 := by
    cases regs <;> simp [sumLens, List.length_append] <;> omega
  unfold runLoop
  rw [hfuel]
  simp [runLoopF, h]

lemma executor_skip_running (now startTime tFin : Int)
    (regs : List (List TaskSpec)) (st : SchedulerState) (h : st.isRunning = true) :
    executor now startTime tFin regs st = (st, [LogMsg.skipRunning], []) := by
  unfold executor
  rw [h]
  simp

lemma executor_skip_cooldown (now startTime tFin : Int)
    (regs : List (List TaskSpec)) (st : SchedulerState)
    (h1 : st.isRunning = false)
    (h2 : now - st.lastFinishTime < st.scheduleConfig.cooldown) :
    executor now startTime tFin regs st =
      (st,
       [LogMsg.skipCooldown
          (jsCeilDiv (st.scheduleConfig.cooldown - (now - st.lastFinishTime)) 1000)],
       []) := by
  unfold executor
  rw [h1, if_neg (by simp), if_pos h2]

lemma executor_run (now startTime tFin : Int) (regs : List (List TaskSpec))
    (st : SchedulerState) (h1 : st.isRunning = false)
    (h2 : st.scheduleConfig.cooldown ≤ now - st.lastFinishTime) :
    executor now startTime tFin regs st =
      ({ st with tasks := (runLoop 0 st.tasks regs).2.2, isRunning := false,
                 lastFinishTime := tFin },
       LogMsg.banner :: LogMsg.startingExec :: (runLoop 0 st.tasks regs).1 ++
         (LogMsg.execCompleted (tFin - startTime) ::
           (if 0 < st.scheduleConfig.cooldown then
              [LogMsg.nextRun (tFin + st.scheduleConfig.cooldown)]
            else []) ++ [LogMsg.banner]),
       (runLoop 0 st.tasks regs).2.1) := by
  unfold executor
  rw [h1, if_neg (by simp), if_neg (not_lt.mpr h2)]

/-- C1: whenever the running flag is set, an executor invocation emits
exactly the one skip notice, invokes no work unit (empty trace, and the
log holds no other message), and leaves the entire scheduler state —
tasks, flag, `lastFinishTime`, schedule config — unchanged. -/
theorem C1_overlap_guard :
    ∀ (now startTime tFin : Int) (regs : List (List TaskSpec))
      (st : SchedulerState), st.isRunning = true →
      executor now startTime tFin regs st = (st, [LogMsg.skipRunning], []) := by
  intro now startTime tFin regs st h
  exact executor_skip_running now startTime tFin regs st h

theorem C1_witness :
    executor 0 0 0 []
        { tasks := [TaskSpec.push 9], isRunning := true, lastFinishTime := 0,
          cronJob := none, scheduleConfig := { schedule := [], cooldown := 0 },
          immediateEnvName := none } =
      ({ tasks := [TaskSpec.push 9], isRunning := true, lastFinishTime := 0,
         cronJob := none, scheduleConfig := { schedule := [], cooldown := 0 },
         immediateEnvName := none }, [LogMsg.skipRunning], []) :=
  C1_overlap_guard 0 0 0 [] _ rfl

/-- A concrete scheduler state with a 30-second cooldown, one registered
unit and a pass just completed at time 0, for the cooldown scenarios. -/
def cool30State : SchedulerState :=
  { tasks := [TaskSpec.push 7], isRunning := false, lastFinishTime := 0,
    cronJob := none, scheduleConfig := { schedule := [], cooldown := 30000 },
    immediateEnvName := none }

/-- C2: with the running flag clear, an invocation whose elapsed time
since `lastFinishTime` is below the cooldown emits one skip notice whose
remaining time is the ceiling of `(cooldown - elapsed)/1000` seconds and
changes nothing; with elapsed at or above the cooldown a pass runs.  With
a 30 s cooldown, invoking 15 s after completion skips with 15 seconds
remaining, and invoking 31 s after completion runs the pass. -/
theorem C2_cooldown_guard :
    (∀ (now startTime tFin : Int) (regs : List (List TaskSpec))
        (st : SchedulerState), st.isRunning = false →
        now - st.lastFinishTime < st.scheduleConfig.cooldown →
        executor now startTime tFin regs st =
          (st,
           [LogMsg.skipCooldown
              (jsCeilDiv
                (st.scheduleConfig.cooldown - (now - st.lastFinishTime)) 1000)],
           []))
  ∧ (∀ (now startTime tFin : Int) (regs : List (List TaskSpec))
        (st : SchedulerState), st.isRunning = false →
        st.scheduleConfig.cooldown ≤ now - st.lastFinishTime →
        LogMsg.startingExec ∈ (executor now startTime tFin regs st).2.1)
  ∧ executor 15000 15000 15000 [] cool30State =
      (cool30State, [LogMsg.skipCooldown 15], [])
  ∧ (executor 31000 31000 31000 [] cool30State).2.2 = [7] := by
  refine ⟨?_, ?_, ?_, ?_⟩
  · intro now startTime tFin regs st h1 h2
    exact executor_skip_cooldown now startTime tFin regs st h1 h2
  · intro now startTime tFin regs st h1 h2
    rw [executor_run now startTime tFin regs st h1 h2]
    simp
  · decide
  · decide

theorem C2_witness :
    executor 15000 0 0 [] cool30State =
      (cool30State, [LogMsg.skipCooldown 15], []) ∧
    LogMsg.startingExec ∈ (executor 31000 0 0 [] cool30State).2.1 := by
  constructor
  · exact (C2_cooldown_guard.1 15000 0 0 [] cool30State rfl (by decide)).trans
      (by decide)
  · exact C2_cooldown_guard.2.1 31000 0 0 [] cool30State rfl (by decide)

/-- A concrete state with no registered units and no cooldown, to observe
the guard update after an empty pass. -/
def emptyPassState : SchedulerState :=
  { tasks := [], isRunning := false, lastFinishTime := 0, cronJob := none,
    scheduleConfig := { schedule := [], cooldown := 0 },
    immediateEnvName := none }

/-- C9: every pass that starts — also over an empty work-unit list and
regardless of unit failures — ends with the running flag clear and
`lastFinishTime` set to the completion-time clock read; both skip paths
leave the state (in particular `lastFinishTime`) untouched. -/
theorem C9_guard_update :
    (∀ (now startTime tFin : Int) (regs : List (List TaskSpec))
        (st : SchedulerState), st.isRunning = false →
        st.scheduleConfig.cooldown ≤ now - st.lastFinishTime →
        (executor now startTime tFin regs st).1.isRunning = false ∧
        (executor now startTime tFin regs st).1.lastFinishTime = tFin)
  ∧ (∀ (now startTime tFin : Int) (regs : List (List TaskSpec))
        (st : SchedulerState), st.isRunning = true →
        (executor now startTime tFin regs st).1 = st)
  ∧ (∀ (now startTime tFin : Int) (regs : List (List TaskSpec))
        (st : SchedulerState), st.isRunning = false →
        now - st.lastFinishTime < st.scheduleConfig.cooldown →
        (executor now startTime tFin regs st).1 = st)
  ∧ (executor 100 100 250 [] emptyPassState).1.lastFinishTime = 250
  ∧ (executor 100 100 250 [] emptyPassState).1.isRunning = false := by
  refine ⟨?_, ?_, ?_, ?_, ?_⟩
  · intro now startTime tFin regs st h1 h2
    rw [executor_run now startTime tFin regs st h1 h2]
    exact ⟨rfl, rfl⟩
  · intro now startTime tFin regs st h
    rw [executor_skip_running now startTime tFin regs st h]
  · intro now startTime tFin regs st h1 h2
    rw [executor_skip_cooldown now startTime tFin regs st h1 h2]
  · decide
  · decide

theorem C9_witness :
    ((executor 0 0 42 [] emptyPassState).1.isRunning = false ∧
     (executor 0 0 42 [] emptyPassState).1.lastFinishTime = 42) ∧
    (executor 10 0 0 [] cool30State).1 = cool30State := by
  constructor
  · exact C9_guard_update.1 0 0 42 [] emptyPassState rfl (by decide)
  · exact C9_guard_update.2.2.1 10 0 0 [] cool30State rfl (by decide)

lemma pushesOf_push (v : Nat) (r : List TaskSpec) :
    pushesOf (TaskSpec.push v :: r) = v :: pushesOf r := rfl

lemma pushesOf_fail (r : List TaskSpec) :
    pushesOf (TaskSpec.fail :: r) = pushesOf r := rfl

lemma runLoop_no_regs (ts : List TaskSpec) : ∀ (n i : Nat), ts.length ≤ i + n →
    runLoop i ts [] =
      ((passFrom ts.length i (ts.drop i)).1,
       (passFrom ts.length i (ts.drop i)).2, ts) := by
  intro n
  induction n with
  | zero =>
    intro i h
    have hdrop : ts.drop i = [] := List.drop_eq_nil_of_le (by omega)
    rw [runLoop_drop_nil i ts [] hdrop, hdrop]
    rfl
  | succ n ih =>
    intro i h
    cases hdrop : ts.drop i with
    | nil =>
      rw [runLoop_drop_nil i ts [] hdrop]
      rfl
    | cons t tail =>
      have htail : ts.drop (i + 1) = tail := by
        rw [← List.tail_drop, hdrop]
        rfl
      cases t with
      | push v =>
        rw [runLoop_push i ts [] v tail hdrop]
        simp only [List.headD_nil, List.append_nil, List.tail_nil]
        rw [ih (i + 1) (by omega), htail]
        simp only [passFrom]
      | fail =>
        rw [runLoop_fail i ts [] tail hdrop]
        simp only [List.headD_nil, List.append_nil, List.tail_nil]
        rw [ih (i + 1) (by omega), htail]
        simp only [passFrom]

lemma passFrom_trace (total : Nat) : ∀ (ts : List TaskSpec), ∀ (i : Nat),
    (passFrom total i ts).2 = pushesOf ts := by
  intro ts
  induction ts with
  | nil => intro i; rfl
  | cons t r ih =>
    intro i
    cases t with
    | push v =>
      simp only [passFrom, pushesOf_push]
      rw [ih (i + 1)]
    | fail =>
      simp only [passFrom, pushesOf_fail]
      rw [ih (i + 1)]

lemma passFrom_err (total : Nat) : ∀ (ts : List TaskSpec), ∀ (i : Nat),
    ((passFrom total i ts).1).filter isErrorMsg = failNotices i ts := by
  intro ts
  induction ts with
  | nil => intro i; rfl
  | cons t r ih =>
    intro i
    cases t with
    | push v =>
      simp only [passFrom, failNotices, List.filter_cons]
      rw [ih (i + 1)]
      rfl
    | fail =>
      simp only [passFrom, failNotices, List.filter_cons]
      rw [ih (i + 1)]
      rfl

lemma passFrom_exec_count (total : Nat) : ∀ (ts : List TaskSpec), ∀ (i : Nat),
    ((passFrom total i ts).1).countP isExecMsg = ts.length := by
  intro ts
  induction ts with
  | nil => intro i; rfl
  | cons t r ih =>
    intro i
    cases t with
    | push v =>
      simp only [passFrom, List.countP_cons, List.length_cons]
      rw [ih (i + 1)]
      rfl
    | fail =>
      simp only [passFrom, List.countP_cons, List.length_cons]
      rw [ih (i + 1)]
      rfl

/-- C3: a pass invokes exactly the registered units in registration order
(one `Executing task` notice per unit, trace of pushed values in list
order); a failing unit produces exactly one error notice with its 1-based
position and later units still run; no failure escapes the pipeline.  For
`[push 1, fail, push 3]` the trace is `[1, 3]` with exactly the error
notice for unit 2. -/
theorem C3_order_and_isolation :
    (∀ (now startTime tFin : Int) (st : SchedulerState),
        st.isRunning = false →
        st.scheduleConfig.cooldown ≤ now - st.lastFinishTime →
        (executor now startTime tFin [] st).2.2 = pushesOf st.tasks)
  ∧ (∀ ts : List TaskSpec, (runLoop 0 ts []).2.1 = pushesOf ts)
  ∧ (∀ ts : List TaskSpec,
      ((runLoop 0 ts []).1).filter isErrorMsg = failNotices 0 ts)
  ∧ (∀ ts : List TaskSpec, ((runLoop 0 ts []).1).countP isExecMsg = ts.length)
  ∧ (runLoop 0 [TaskSpec.push 1, TaskSpec.fail, TaskSpec.push 3] []).2.1 = [1, 3]
  ∧ ((runLoop 0 [TaskSpec.push 1, TaskSpec.fail, TaskSpec.push 3] []).1).filter
        isErrorMsg = [LogMsg.taskFailed 2] := by
  have htrace : ∀ ts : List TaskSpec, (runLoop 0 ts []).2.1 = pushesOf ts := by
    intro ts
    rw [runLoop_no_regs ts ts.length 0 (by omega)]
    simp only [List.drop_zero]
    exact passFrom_trace ts.length ts 0
  refine ⟨?_, htrace, ?_, ?_, ?_, ?_⟩
  · intro now startTime tFin st h1 h2
    rw [executor_run now startTime tFin [] st h1 h2]
    exact htrace st.tasks
  · intro ts
    rw [runLoop_no_regs ts ts.length 0 (by omega)]
    simp only [List.drop_zero]
    exact passFrom_err ts.length ts 0
  · intro ts
    rw [runLoop_no_regs ts ts.length 0 (by omega)]
    simp only [List.drop_zero]
    exact passFrom_exec_count ts.length ts 0
  · decide
  · decide

theorem C3_witness :
    (executor 0 0 0 []
        { tasks := [TaskSpec.push 1, TaskSpec.fail, TaskSpec.push 3],
          isRunning := false, lastFinishTime := 0, cronJob := none,
          scheduleConfig := { schedule := [], cooldown := 0 },
          immediateEnvName := none }).2.2 =
      pushesOf [TaskSpec.push 1, TaskSpec.fail, TaskSpec.push 3] :=
  C3_order_and_isolation.1 0 0 0 _ rfl (by decide)

lemma sumLens_head_tail (regs : List (List TaskSpec)) :
    sumLens regs = (regs.headD []).length + sumLens regs.tail := by
  cases regs <;> simp [sumLens]

lemma runLoop_final_prefix : ∀ (n i : Nat) (ts : List TaskSpec)
    (regs : List (List TaskSpec)), sumLens regs + ts.length - i ≤ n →
    (∃ ext, (runLoop i ts regs).2.2 = ts ++ ext) ∧
    (runLoop i ts regs).2.1 =
      pushesOf ((runLoop i ts regs).2.2.drop i) := by
  intro n
  induction n with
  | zero =>
    intro i ts regs h
    have hdrop : ts.drop i = [] := List.drop_eq_nil_of_le (by omega)
    rw [runLoop_drop_nil i ts regs hdrop]
    exact ⟨⟨[], (List.append_nil ts).symm⟩, by rw [hdrop]; rfl⟩
  | succ n ih =>
    intro i ts regs h
    cases hdrop : ts.drop i with
    | nil =>
      rw [runLoop_drop_nil i ts regs hdrop]
      exact ⟨⟨[], (List.append_nil ts).symm⟩, by rw [hdrop]; rfl⟩
    | cons t tail =>
      have hlen : i < ts.length := by
        have h2 := congrArg List.length hdrop
        simp [List.length_drop] at h2
        omega
      have hmeas : sumLens regs.tail + (ts ++ regs.headD []).length - (i + 1) ≤ n := by
        have hsd := sumLens_head_tail regs
        simp only [List.length_append]
        omega
      obtain ⟨⟨ext, hfin⟩, htr⟩ := ih (i + 1) (ts ++ regs.headD []) regs.tail hmeas
      have hfin2 : (runLoop (i + 1) (ts ++ regs.headD []) regs.tail).2.2 =
          ts ++ (regs.headD [] ++ ext) := by
        rw [hfin, List.append_assoc]
      have hfl : i < (ts ++ (regs.headD [] ++ ext)).length := by
        simp only [List.length_append]
        omega
      have hgetts := List.drop_eq_getElem_cons hlen
      rw [hdrop] at hgetts
      have hdropfin := List.drop_eq_getElem_cons hfl
      rw [List.getElem_append_left hlen] at hdropfin
      cases t with
      | push v =>
        have hget : ts[i] = TaskSpec.push v := ((List.cons.injEq _ _ _ _).mp hgetts).1.symm
        rw [hget] at hdropfin
        rw [runLoop_push i ts regs v tail hdrop]
        refine ⟨⟨regs.headD [] ++ ext, hfin2⟩, ?_⟩
        rw [htr, hfin2, hdropfin, pushesOf_push]
      | fail =>
        have hget : ts[i] = TaskSpec.fail := ((List.cons.injEq _ _ _ _).mp hgetts).1.symm
        rw [hget] at hdropfin
        rw [runLoop_fail i ts regs tail hdrop]
        refine ⟨⟨regs.headD [] ++ ext, hfin2⟩, ?_⟩
        rw [htr, hfin2, hdropfin, pushesOf_fail]

/-- A one-unit scheduler state with no cooldown, used to run a pass during
which a second unit gets registered. -/
def c8State : SchedulerState :=
  { tasks := [TaskSpec.push 1], isRunning := false, lastFinishTime := 0,
    cronJob := none, scheduleConfig := { schedule := [], cooldown := 0 },
    immediateEnvName := none }

/-- C8 counterexample: with one registered unit pushing 1 and a unit
pushing 2 registered while the first unit executes, the in-progress pass
invokes the newly registered unit too — the trace is `[1, 2]`, not the
`[1]` the claim requires. -/
theorem C8_counterexample :
    (executor 0 0 0 [[TaskSpec.push 2]] c8State).2.2 ≠ [1] ∧
    (executor 0 0 0 [[TaskSpec.push 2]] c8State).2.2 = [1, 2] := by
  constructor <;> decide

/-- C8 amended: registration after scheduling has started is legal, but
the work-unit sequence is read live on every loop iteration, not once at
pass start: a pass invokes exactly the units of the final live sequence in
order, so units registered while the pass is in progress (before the loop
passes their position) are invoked by that same pass. -/
theorem C8_live_sequence :
    ∀ (regs : List (List TaskSpec)) (now startTime tFin : Int)
      (st : SchedulerState), st.isRunning = false →
      st.scheduleConfig.cooldown ≤ now - st.lastFinishTime →
      (executor now startTime tFin regs st).2.2 =
        pushesOf ((executor now startTime tFin regs st).1.tasks) := by
  intro regs now startTime tFin st h1 h2
  rw [executor_run now startTime tFin regs st h1 h2]
  obtain ⟨-, htr⟩ := runLoop_final_prefix (sumLens regs + st.tasks.length) 0
    st.tasks regs (by omega)
  simpa using htr

theorem C8_live_sequence_witness :
    (executor 0 0 0 [[TaskSpec.push 2]] c8State).2.2 =
      pushesOf ((executor 0 0 0 [[TaskSpec.push 2]] c8State).1.tasks) :=
  C8_live_sequence [[TaskSpec.push 2]] 0 0 0 c8State rfl (by decide)

/-- An environment in which no variable is present (scheduled mode). -/
def emptyEnv : List Char → Option (List Char) := fun _ => none

/-- A scheduler constructed for scheduled mode, used for the lifecycle
scenarios. -/
def c6Sched : SchedulerState :=
  TaskScheduler.mk (some ("*/5 * * * * *".toList)) {}

def c6Run1 : SchedulerState × CronWorld × List LogMsg × List Nat :=
  TaskScheduler.run emptyEnv 0 0 0 [] c6Sched ⟨0, []⟩

def c6Run2 : SchedulerState × CronWorld × List LogMsg × List Nat :=
  TaskScheduler.run emptyEnv 0 0 0 [] c6Run1.1 c6Run1.2.1

def c6Stop : SchedulerState × CronWorld × List LogMsg :=
  TaskScheduler.stop c6Run2.1 c6Run2.2.1

/-- C6 evaluation: calling `run` in scheduled mode twice creates and
starts a second CronJob while the first is still ticking (the handle is
overwritten without stopping it), and the single `stop` that follows only
stops the second job: trigger 0 keeps ticking and keeps invoking the
executor.  This contradicts the claim that the previous Trigger is always
stopped before the new one starts. -/
theorem C6_trigger_leak :
    c6Run1.2.1.ticking = [0] ∧
    c6Run2.2.1.ticking = [0, 1] ∧
    c6Stop.2.1.ticking = [0] ∧
    c6Stop.2.1.ticking ≠ [] := by
  refine ⟨?_, ?_, ?_, ?_⟩ <;> decide

/-- A scheduler constructed for scheduled mode, for the stop scenarios. -/
def c7Sched : SchedulerState :=
  TaskScheduler.mk (some ("*/5 * * * * *".toList)) {}

def c7Run : SchedulerState × CronWorld × List LogMsg × List Nat :=
  TaskScheduler.run emptyEnv 0 0 0 [] c7Sched ⟨0, []⟩

def c7Stop1 : SchedulerState × CronWorld × List LogMsg :=
  TaskScheduler.stop c7Run.1 c7Run.2.1

def c7Stop2 : SchedulerState × CronWorld × List LogMsg :=
  TaskScheduler.stop c7Stop1.1 c7Stop1.2.1

/-- C7 evaluation: `stop` before any scheduled `run` is indeed a silent
no-op, and the first `stop` after a scheduled `run` stops the job and
logs the notice; but the source never clears `this.cronJob`, so a second
`stop` finds the handle again, calls `stop()` on the already-stopped job
and emits the "stopped" notice a second time — contradicting the claimed
idempotence (second call was required to produce no log output). -/
theorem C7_second_stop_logs_again :
    TaskScheduler.stop c7Sched ⟨0, []⟩ = (c7Sched, ⟨0, []⟩, []) ∧
    c7Stop1.2.2 = [LogMsg.stopped] ∧
    c7Stop1.1.cronJob = some 0 ∧
    c7Stop2.2.2 = [LogMsg.stopped] ∧
    c7Stop2.2.2 ≠ [] := by
  refine ⟨?_, ?_, ?_, ?_, ?_⟩ <;> decide

end ParserLemmas
